import Mathlib

/-!
Verification of the `parity` crate (`src/lib.rs`).

The crate defines a trait `Parity` with two queries, `is_even` and `is_odd`,
implemented for every primitive integer type (`i8..i128`, `isize`,
`u8..u128`, `usize`) by the macro `impl_parity` and for `f32`/`f64` by the
macro `impl_float_parity`.

Integer embedding.  For every integer type the source body is
  `fn is_even(&self) -> bool { *self & 1 == 0 }`
  `fn is_odd(&self)  -> bool { *self & 1 != 0 }`
Rust evaluates `&` on the type's w-bit pattern: the unsigned binary
pattern for unsigned types and the two's-complement pattern for signed
types.  We model a machine integer type as a bit width together with a
signedness flag, a value as its mathematical integer `v : ℤ` constrained
to the representable range, and `v & 1` as `(v mod 2^w) &&& 1` on ℕ:
`v mod 2^w` (mathematical modulus, non-negative) is exactly the w-bit
two's-complement / unsigned pattern of a representable `v`.

Float embedding.  For `f32` and `f64` the source body is
  `fn is_even(&self) -> bool { self.fract() == 0.0 && *self % 2.0 == 0.0 }`
  `fn is_odd(&self)  -> bool { self.fract() == 0.0 && *self % 2.0 != 0.0 }`
We model a float value by cases: NaN, signed infinity, negative zero, or a
finite numeric value given exactly as a rational.  All operations the code
performs are exact in IEEE-754 arithmetic, so they are modelled exactly:
`fract` is `self - self.trunc()`, which is exact (trivially for |x| < 1,
by Sterbenz's lemma otherwise) and yields NaN on NaN and on infinities
(inf - inf); `% 2.0` is fmod, whose exact value `x - 2*trunc(x/2)` is
always representable, and which yields NaN on NaN and infinities and a
result carrying the dividend's sign (so `-0.0 % 2.0 = -0.0`); `== 0.0`
and `!= 0.0` are numeric comparisons, so they identify `-0.0` with `0.0`,
and NaN compares unequal to everything (`NaN == 0.0` is false,
`NaN != 0.0` is true).  The model covers both `f32` and `f64`: every
finite value of either type is a rational, and the operations used are
precision-independent; representability (the only place the two formats
differ) enters solely as a hypothesis bounding the significand width.
-/

namespace ParityLib

/-- A primitive machine integer type: bit width and signedness.  The crate
implements `Parity` for widths 8, 16, 32, 64, 128 in both signednesses plus
the pointer-width pair `isize`/`usize`; all have `0 < width`. -/
structure IntTy where
  width : Nat
  signed : Bool

/-- The values representable in machine integer type `t`:
two's-complement range for signed, `[0, 2^w)` for unsigned. -/
def IntTy.representable (t : IntTy) (v : Int) : Prop :=
  if t.signed then -(2 : Int) ^ (t.width - 1) ≤ v ∧ v < (2 : Int) ^ (t.width - 1)
  else 0 ≤ v ∧ v < (2 : Int) ^ t.width

instance (t : IntTy) (v : Int) : Decidable (t.representable v) := by
  unfold IntTy.representable; infer_instance

/-- The w-bit pattern of value `v` in type `t`: the unsigned binary pattern
for unsigned types, the two's-complement pattern for signed types.  For a
representable `v` both are `v mod 2^w`, which is non-negative. -/
def IntTy.toBits (t : IntTy) (v : Int) : Nat :=
  (v % (2 : Int) ^ t.width).toNat

/-- Source `*self & 1 == 0` from `impl_parity`: the bitwise AND is computed on the
type's w-bit pattern. -/
def IntTy.is_even (t : IntTy) (v : Int) : Bool :=
  t.toBits v &&& 1 == 0

/-- Source `*self & 1 != 0` from `impl_parity`. -/
def IntTy.is_odd (t : IntTy) (v : Int) : Bool :=
  t.toBits v &&& 1 != 0

/-- The low bit of the machine pattern is the mathematical value mod 2,
for any positive-width type. -/
theorem IntTy.toBits_and_one (t : IntTy) (v : Int) (hw : 0 < t.width) :
    t.toBits v &&& 1 = (v % 2).toNat := by
  rw [Nat.and_one_is_mod]
  unfold IntTy.toBits
  have hdvd : (2 : Int) ∣ (2 : Int) ^ t.width := dvd_pow_self 2 (Nat.pos_iff_ne_zero.mp hw)
  have h1 : v % (2 : Int) ^ t.width % 2 = v % 2 := Int.emod_emod_of_dvd v hdvd
  have h2 : 0 ≤ v % (2 : Int) ^ t.width :=
    Int.emod_nonneg v (by positivity)
  omega

end ParityLib

namespace ParityLib

/-! ### Float model -/

/-- A floating-point value of `f32` or `f64`, by numeric content: NaN, an
infinity with its sign, negative zero, or a finite value given exactly as a
rational (`fin 0` is positive zero). -/
inductive FVal where
  | nan : FVal
  | inf (neg : Bool) : FVal
  | negZero : FVal
  | fin (q : Rat) : FVal
deriving DecidableEq

/-- Truncation toward zero, the semantics of Rust's `f32::trunc`/`f64::trunc`
on finite values: `Int.tdiv` is T-division, so `num.tdiv den` rounds the
reduced fraction toward zero. -/
def truncQ (q : Rat) : Int :=
  q.num.tdiv q.den

/-- Rust `self.fract()`, i.e. `self - self.trunc()`: exact on finite values
(Sterbenz), `-0.0 - -0.0 = +0.0` on negative zero, NaN on NaN and on
infinities (`inf - inf` is NaN). -/
def FVal.fract : FVal → FVal
  | .nan => .nan
  | .inf _ => .nan
  | .negZero => .fin 0
  | .fin q => .fin (q - (truncQ q : Rat))

/-- Rust `self % 2.0`, i.e. fmod by 2: the exact value `x - 2 * trunc(x/2)` on
finite values, `-0.0` on `-0.0` (fmod keeps the dividend's sign), NaN on NaN
and on infinities. -/
def FVal.mod2 : FVal → FVal
  | .nan => .nan
  | .inf _ => .nan
  | .negZero => .negZero
  | .fin q => .fin (q - 2 * (truncQ (q / 2) : Rat))

/-- The IEEE comparison `x == 0.0`: numeric, so `-0.0 == 0.0` holds and NaN
compares false against everything. -/
def FVal.eqZero : FVal → Bool
  | .nan => false
  | .inf _ => false
  | .negZero => true
  | .fin q => q == 0

/-- The IEEE comparison `x != 0.0`: negation of `==`, so it is true on NaN. -/
def FVal.neZero : FVal → Bool
  | .nan => true
  | .inf _ => true
  | .negZero => false
  | .fin q => q != 0

/-- Source `self.fract() == 0.0 && *self % 2.0 == 0.0` from `impl_float_parity`. -/
def FVal.is_even (v : FVal) : Bool :=
  v.fract.eqZero && v.mod2.eqZero

/-- Source `self.fract() == 0.0 && *self % 2.0 != 0.0` from `impl_float_parity`. -/
def FVal.is_odd (v : FVal) : Bool :=
  v.fract.eqZero && v.mod2.neZero

/-! ### Spec-side float predicates (for the refinement claim)

These follow the spec's words, not the code: "`is_even` is true iff the
value has zero fractional part AND the integral value is divisible by 2;
`is_odd` is true iff the value has zero fractional part AND the integral
value is not divisible by 2". -/

/-- Spec side: the value has zero fractional part, i.e. it is (numerically)
an integer.  NaN and infinities are not integers; `-0.0` and `0.0` are. -/
def FVal.specIsIntegral : FVal → Bool
  | .nan => false
  | .inf _ => false
  | .negZero => true
  | .fin q => q.den == 1

/-- Spec side: the integral value of an integral float (junk elsewhere). -/
def FVal.specIntVal : FVal → Int
  | .fin q => q.num
  | _ => 0

/-- Spec side: zero fractional part and integral value divisible by 2. -/
def FVal.spec_is_even (v : FVal) : Bool :=
  v.specIsIntegral && (v.specIntVal % 2 == 0)

/-- Spec side: zero fractional part and integral value not divisible by 2. -/
def FVal.spec_is_odd (v : FVal) : Bool :=
  v.specIsIntegral && (v.specIntVal % 2 != 0)

/-! ### Helper lemmas about the exact float operations -/

theorem truncQ_intCast (k : Int) : truncQ (k : Rat) = k := by
  unfold truncQ
  rw [Rat.num_intCast, Rat.den_intCast, Nat.cast_one]
  exact Int.tdiv_one k

/-- Fract vanishes exactly on integers: `fract q = 0` iff `q` is an integer. -/
theorem fract_eq_zero_iff (q : Rat) : q - (truncQ q : Rat) = 0 ↔ q.den = 1 := by
  constructor
  · intro h
    have hq : q = (truncQ q : Rat) := by linarith
    rw [hq]
    exact Rat.den_intCast _
  · intro h
    have hq : ((q.num : Rat)) = q := (Rat.den_eq_one_iff q).mp h
    rw [← hq, truncQ_intCast]
    ring

/-- On an integer value, fmod by 2 vanishes exactly for even integers. -/
theorem mod2_eq_zero_iff (k : Int) :
    (k : Rat) - 2 * (truncQ ((k : Rat) / 2) : Rat) = 0 ↔ k % 2 = 0 := by
  constructor
  · intro h
    have hk : (k : Rat) = ((2 * truncQ ((k : Rat) / 2) : Int) : Rat) := by
      push_cast
      linarith
    have : k = 2 * truncQ ((k : Rat) / 2) := by exact_mod_cast hk
    omega
  · intro h
    obtain ⟨j, hj⟩ : ∃ j, k = 2 * j := ⟨k / 2, by omega⟩
    subst hj
    have h2 : ((2 * j : Int) : Rat) / 2 = (j : Rat) := by
      push_cast
      ring
    rw [h2, truncQ_intCast]
    push_cast
    ring

end ParityLib

namespace ParityLib

/-! ### Claim theorems -/

/-- Claim C1: for every supported integer type (positive width, either
signedness) and every representable value `v`, `is_even v` holds exactly
when `v mod 2 = 0` (the low bit of the pattern is 0) and `is_odd v` holds
exactly when `v mod 2 = 1`; this covers negatives, zero, min and max. -/
theorem c1_int_parity_is_mod_two (t : IntTy) (v : Int)
    (hw : 0 < t.width) (hv : t.representable v) :
    (t.is_even v = true ↔ v % 2 = 0) ∧ (t.is_odd v = true ↔ v % 2 = 1) := by
  have hb := t.toBits_and_one v hw
  have h2 : v % 2 = 0 ∨ v % 2 = 1 := Int.emod_two_eq_zero_or_one v
  unfold IntTy.is_even IntTy.is_odd
  rw [hb]
  constructor
  · rw [beq_iff_eq]
    omega
  · rw [bne_iff_ne]
    omega

theorem c1_int_parity_is_mod_two_witness :
    0 < (IntTy.mk 8 true).width ∧ (IntTy.mk 8 true).representable (-1) ∧
    (((IntTy.mk 8 true).is_even (-1) = true ↔ (-1 : Int) % 2 = 0) ∧
     ((IntTy.mk 8 true).is_odd (-1) = true ↔ (-1 : Int) % 2 = 1)) :=
  ⟨by decide, by decide,
    c1_int_parity_is_mod_two (IntTy.mk 8 true) (-1) (by decide) (by decide)⟩

/-- Claim C2: for every supported integer type and representable value,
exactly one of `is_even` and `is_odd` is true. -/
theorem c2_int_even_odd_complement (t : IntTy) (v : Int)
    (hv : t.representable v) :
    t.is_even v ≠ t.is_odd v := by
  unfold IntTy.is_even IntTy.is_odd
  cases h : (t.toBits v &&& 1 == 0) <;> simp only [bne, h, Bool.not_false, Bool.not_true] <;>
    exact fun hc => by cases hc

theorem c2_int_even_odd_complement_witness :
    (IntTy.mk 32 false).representable 7 ∧
    (IntTy.mk 32 false).is_even 7 ≠ (IntTy.mk 32 false).is_odd 7 :=
  ⟨by decide, c2_int_even_odd_complement (IntTy.mk 32 false) 7 (by decide)⟩

/-- Claim C3: the float implementation refines the spec's description:
`is_even v` is true iff `v` has zero fractional part and its integral value
is divisible by 2, and `is_odd v` is true iff `v` has zero fractional part
and its integral value is not divisible by 2.  In particular any value with
a nonzero fractional part is neither even nor odd. -/
theorem c3_float_refines_spec (v : FVal) :
    v.is_even = v.spec_is_even ∧ v.is_odd = v.spec_is_odd := by
  cases v with
  | nan => exact ⟨rfl, rfl⟩
  | inf b => exact ⟨rfl, rfl⟩
  | negZero => constructor <;> decide
  | fin q =>
    simp only [FVal.is_even, FVal.is_odd, FVal.spec_is_even, FVal.spec_is_odd,
      FVal.fract, FVal.mod2, FVal.eqZero, FVal.neZero, FVal.specIsIntegral,
      FVal.specIntVal]
    by_cases hden : q.den = 1
    · have hq : ((q.num : Rat)) = q := (Rat.den_eq_one_iff q).mp hden
      have hfract : q - (truncQ q : Rat) = 0 := (fract_eq_zero_iff q).mpr hden
      have hmod := mod2_eq_zero_iff q.num
      rw [hq] at hmod
      rw [hfract, hden]
      constructor
      · rw [Bool.eq_iff_iff]
        simp only [Bool.and_eq_true, beq_iff_eq]
        constructor
        · intro h
          exact ⟨trivial, hmod.mp h.2⟩
        · intro h
          exact ⟨trivial, hmod.mpr h.2⟩
      · rw [Bool.eq_iff_iff]
        simp only [Bool.and_eq_true, beq_iff_eq, bne_iff_ne]
        constructor
        · intro h
          exact ⟨trivial, fun hc => h.2 (hmod.mpr hc)⟩
        · intro h
          exact ⟨trivial, fun hc => h.2 (hmod.mp hc)⟩
    · have hfract : q - (truncQ q : Rat) ≠ 0 :=
        fun hc => hden ((fract_eq_zero_iff q).mp hc)
      have h1 : (q - (truncQ q : Rat) == 0) = false := beq_eq_false_iff_ne.mpr hfract
      have h2 : (q.den == 1) = false := by
        simp [hden]
      rw [h1, h2]
      constructor <;> rfl

/-- Claim C4: for every float value, `is_even` and `is_odd` are never both
true (though both may be false). -/
theorem c4_float_never_both (v : FVal) : (v.is_even && v.is_odd) = false := by
  cases v with
  | nan => rfl
  | inf b => rfl
  | negZero => decide
  | fin q =>
    simp only [FVal.is_even, FVal.is_odd, FVal.fract, FVal.mod2, FVal.eqZero,
      FVal.neZero]
    cases h1 : (q - (truncQ q : Rat) == 0) <;>
      cases h2 : (q - 2 * (truncQ (q / 2) : Rat) == 0) <;>
      simp [bne, h1, h2]

/-- Claim C5: NaN is neither even nor odd. -/
theorem c5_float_nan_rejected :
    FVal.nan.is_even = false ∧ FVal.nan.is_odd = false :=
  ⟨rfl, rfl⟩

/-- Claim C6: positive and negative infinity are neither even nor odd. -/
theorem c6_float_inf_rejected (neg : Bool) :
    (FVal.inf neg).is_even = false ∧ (FVal.inf neg).is_odd = false :=
  ⟨rfl, rfl⟩

/-- Claim C7: negative zero is even and not odd, classified exactly like
positive zero. -/
theorem c7_float_neg_zero_even :
    FVal.negZero.is_even = true ∧ FVal.negZero.is_odd = false ∧
    (FVal.fin 0).is_even = true ∧ (FVal.fin 0).is_odd = false := by
  have h0 : truncQ 0 = 0 := by simpa using truncQ_intCast 0
  refine ⟨by decide, by decide, ?_, ?_⟩ <;>
    simp [FVal.is_even, FVal.is_odd, FVal.fract, FVal.mod2, FVal.eqZero,
      FVal.neZero, zero_div, h0]

/-- Claim C8: both queries are total on every supported type: every input
yields a boolean, no input errors.  (In the embedding, every operation
performed - the masked AND for integers, the exact fract / fmod and the
comparisons for floats - is a total function, so a result boolean always
exists; nothing can overflow or trap, including the signed minimum.) -/
theorem c8_total (t : IntTy) (v : Int) (u : FVal) :
    (∃ b, t.is_even v = b) ∧ (∃ b, t.is_odd v = b) ∧
    (∃ b, u.is_even = b) ∧ (∃ b, u.is_odd = b) :=
  ⟨⟨_, rfl⟩, ⟨_, rfl⟩, ⟨_, rfl⟩, ⟨_, rfl⟩⟩

/-- Claim C9: both queries are pure, deterministic functions of their input:
equal inputs give equal outputs (the embedding is a pure function, with no
state read or written). -/
theorem c9_deterministic (t : IntTy) (v₁ v₂ : Int) (u₁ u₂ : FVal)
    (hi : v₁ = v₂) (hf : u₁ = u₂) :
    t.is_even v₁ = t.is_even v₂ ∧ t.is_odd v₁ = t.is_odd v₂ ∧
    u₁.is_even = u₂.is_even ∧ u₁.is_odd = u₂.is_odd := by
  subst hi
  subst hf
  exact ⟨rfl, rfl, rfl, rfl⟩

theorem c9_deterministic_witness :
    (2 : Int) = 2 ∧ FVal.fin 1 = FVal.fin 1 ∧
    ((IntTy.mk 8 true).is_even 2 = (IntTy.mk 8 true).is_even 2 ∧
     (IntTy.mk 8 true).is_odd 2 = (IntTy.mk 8 true).is_odd 2 ∧
     (FVal.fin 1).is_even = (FVal.fin 1).is_even ∧
     (FVal.fin 1).is_odd = (FVal.fin 1).is_odd) :=
  ⟨rfl, rfl, c9_deterministic (IntTy.mk 8 true) 2 2 (FVal.fin 1) (FVal.fin 1) rfl rfl⟩

/-- Any even-integer-valued float is even and not odd. -/
theorem is_even_of_even_int (j : Int) :
    (FVal.fin ((2 * j : Int) : Rat)).is_even = true ∧
    (FVal.fin ((2 * j : Int) : Rat)).is_odd = false := by
  have hfract : ((2 * j : Int) : Rat) - (truncQ ((2 * j : Int) : Rat) : Rat) = 0 := by
    rw [truncQ_intCast]
    ring
  have hmod : ((2 * j : Int) : Rat) - 2 * (truncQ (((2 * j : Int) : Rat) / 2) : Rat) = 0 :=
    (mod2_eq_zero_iff (2 * j)).mpr (by omega)
  simp only [FVal.is_even, FVal.is_odd, FVal.fract, FVal.mod2, FVal.eqZero,
    FVal.neZero]
  rw [hfract, hmod]
  constructor <;> simp

/-- Claim C10: every finite float of significand precision `p` (24 for f32,
53 for f64) whose magnitude is at least `2^p` is an even integer, so
`is_even` returns true and `is_odd` returns false on it; `is_odd` can only
be true below that magnitude. -/
theorem c10_huge_floats_even (p : Nat) (m e : Int) (hp : 1 ≤ p)
    (hm : m.natAbs < 2 ^ p) (hv : (2 : Rat) ^ p ≤ |(m : Rat) * 2 ^ e|) :
    (FVal.fin ((m : Rat) * 2 ^ e)).is_even = true ∧
    (FVal.fin ((m : Rat) * 2 ^ e)).is_odd = false := by
  have habs : |(m : Rat)| = (m.natAbs : Rat) := by
    rw [Int.cast_natAbs, Int.cast_abs]
  have hmQ : |(m : Rat)| < (2 : Rat) ^ p := by
    rw [habs]
    exact_mod_cast hm
  have he : 1 ≤ e := by
    by_contra hc
    push_neg at hc
    have he0 : e ≤ 0 := by omega
    have h2e : (2 : Rat) ^ e ≤ 1 := zpow_le_one_of_nonpos₀ (by norm_num) he0
    have h2epos : (0 : Rat) < 2 ^ e := zpow_pos (by norm_num) e
    have : |(m : Rat) * 2 ^ e| = |(m : Rat)| * 2 ^ e := by
      rw [abs_mul, abs_of_pos h2epos]
    rw [this] at hv
    have hlt : |(m : Rat)| * 2 ^ e < (2 : Rat) ^ p := by
      calc |(m : Rat)| * 2 ^ e ≤ |(m : Rat)| * 1 := by
            apply mul_le_mul_of_nonneg_left h2e (abs_nonneg _)
        _ = |(m : Rat)| := mul_one _
        _ < (2 : Rat) ^ p := hmQ
    linarith
  set n : Nat := (e - 1).toNat with hn
  have hen : e = (n : Int) + 1 := by omega
  have hval : (m : Rat) * 2 ^ e = ((2 * (m * 2 ^ n) : Int) : Rat) := by
    rw [hen]
    push_cast
    rw [zpow_add₀ (by norm_num : (2 : Rat) ≠ 0), zpow_natCast, zpow_one]
    ring
  rw [hval]
  exact is_even_of_even_int (m * 2 ^ n)

theorem c10_huge_floats_even_witness :
    1 ≤ 1 ∧ (1 : Int).natAbs < 2 ^ 1 ∧
    (2 : Rat) ^ (1 : Nat) ≤ |((1 : Int) : Rat) * 2 ^ (1 : Int)| ∧
    ((FVal.fin (((1 : Int) : Rat) * 2 ^ (1 : Int))).is_even = true ∧
     (FVal.fin (((1 : Int) : Rat) * 2 ^ (1 : Int))).is_odd = false) :=
  ⟨le_refl 1, by decide, by simp,
    c10_huge_floats_even 1 1 1 (le_refl 1) (by decide) (by simp)⟩

end ParityLib
